import Mathlib

/-!
Verification of the para-convolution repository's core against its design
specification.

The development shallowly embeds, from the Go sources:
  * the lock-free work-stealing deque (`src/proj3/deque/deque.go`),
  * the reusable phase barrier (`src/proj3/png/effects.go`),
  * the sequential and BSP (banded) image effects
    (`src/proj3/png/effects.go`),
  * the sliced effect pipeline (`src/proj3/scheduler/bsp.go`).

Machine integers are modelled as `Nat`/`Int` (the Go code never relies on
overflow in these routines: pixel channels are at most 65535, sums at most
3·65535, and all counters stay far below 2^63).  Atomic pointer cells are
modelled as an explicit heap (`List` of nodes addressed by index) with the
load / compare-and-swap steps of each operation spelled out; the retry
loops of the Go code carry an explicit fuel so every definition is a total,
executable function.  Fallible code (Go `panic`) is modelled with
`Except`/`Option`.
-/

/-! ## Work-stealing deque (src/proj3/deque/deque.go)

A node holds an optional task payload (the dummy node has none) and a
`next` pointer; `none` models Go's nil pointer.  The heap is the list of
all nodes ever allocated, addressed by allocation index, matching Go where
nodes are never freed.  Each arm of the fueled loops below mirrors one
iteration of the corresponding Go `for` loop executed without interference
(a sequence of such completed calls is one particular — sequential —
interleaving of the concurrent object's history). -/

namespace Deque

/-- `node` from deque.go: task payload and next pointer. -/
structure DNode where
  task : Option Nat
  next : Option Nat
deriving DecidableEq, Repr

/-- `Deque` from deque.go: `head`/`tail` pointers plus the heap of nodes
(indices into `nodes` play the role of pointers). -/
structure DState where
  nodes : List DNode
  head : Nat
  tail : Nat
deriving DecidableEq, Repr

/-- `NewDeque`: head and tail both point at a fresh dummy node. -/
def NewDeque : DState := ⟨[⟨none, none⟩], 0, 0⟩

/-- Pointer dereference: read the node at address `i`. -/
def getNode (d : DState) (i : Nat) : DNode := d.nodes.getD i ⟨none, none⟩

/-- Store into a node's `next` field. -/
def setNext (d : DState) (i : Nat) (nx : Option Nat) : DState :=
  { d with nodes := d.nodes.set i { d.nodes.getD i ⟨none, none⟩ with next := nx } }

/-- One retry loop of `Push` after the new node has been allocated at
address `newId`.  Mirrors deque.go lines 32–50: load `tail`, load
`tail.next`; the consistency re-load of `d.tail` always agrees in an
uninterfered iteration.  If `next` is nil, CAS `tail.next` from nil to the
new node (succeeds: we just read nil) and then CAS `d.tail` forward; if
`next` is non-nil, help by CASing `d.tail` from `tail` to `next` and
retry. -/
def pushLoop (newId : Nat) : Nat → DState → Option DState
  | 0, _ => none
  | fuel + 1, d =>
    let tailId := d.tail
    match (getNode d tailId).next with
    | none =>
      let d1 := setNext d tailId (some newId)
      let d2 := if d1.tail = tailId then { d1 with tail := newId } else d1
      some d2
    | some nxt =>
      let d1 := if d.tail = tailId then { d with tail := nxt } else d
      pushLoop newId fuel d1

/-- `Push task`: allocate the node, then run the retry loop. -/
def Push (t : Nat) (fuel : Nat) (d : DState) : Option DState :=
  let newId := d.nodes.length
  pushLoop newId fuel { d with nodes := d.nodes ++ [⟨some t, none⟩] }

/-- `findPrevious target`: walk from `head` following `next` links;
return the node whose `next` is `target`, or nil (`some none`) when the
chain ends without meeting `target`.  The outer `none` is fuel
exhaustion (unreachable for fuel ≥ chain length). -/
def findPreviousLoop (d : DState) (target : Nat) : Nat → Nat → Option (Option Nat)
  | 0, _ => none
  | fuel + 1, current =>
    match (getNode d current).next with
    | some nxt =>
      if nxt = target then some (some current)
      else findPreviousLoop d target fuel nxt
    | none => some none

/-- `findPrevious` starts its walk at `d.head` (deque.go line 107). -/
def findPrevious (d : DState) (target : Nat) : Option (Option Nat) :=
  findPreviousLoop d target d.nodes.length d.head

/-- One retry loop of `Pop` (deque.go lines 55–77): load `tail` and
`head`; if equal, return empty; otherwise find the tail's predecessor
(nil predecessor means a concurrent change — restart); then CAS `d.tail`
back to the predecessor and deliver the retracted node's task. -/
def popLoop : Nat → DState → Option (Option Nat × DState)
  | 0, _ => none
  | fuel + 1, d =>
    let tailId := d.tail
    let headId := d.head
    if tailId = headId then some (none, d)
    else
      match findPrevious d tailId with
      | none => none
      | some none => popLoop fuel d
      | some (some prev) =>
        if d.tail = tailId then some ((getNode d tailId).task, { d with tail := prev })
        else popLoop fuel d

/-- `Pop` with explicit fuel for the retry loop. -/
def Pop (fuel : Nat) (d : DState) : Option (Option Nat × DState) := popLoop fuel d

/-- One retry loop of `Steal` (deque.go lines 82–102): load `head`,
`tail`, `head.next`; re-load `head` for consistency (always agrees in an
uninterfered iteration); if `head = tail`, return empty; otherwise CAS
`d.head` forward to `next` and deliver the task of the node just passed
over.  A nil `next` with `head ≠ tail` would make Go dereference nil;
that state never arises in our traces, and is modelled as `none`. -/
def stealLoop : Nat → DState → Option (Option Nat × DState)
  | 0, _ => none
  | fuel + 1, d =>
    let headId := d.head
    let tailId := d.tail
    match (getNode d headId).next with
    | some nxt =>
      if headId = tailId then some (none, d)
      else if d.head = headId then some ((getNode d nxt).task, { d with head := nxt })
      else stealLoop fuel d
    | none =>
      if headId = tailId then some (none, d)
      else none

/-- `Steal` with explicit fuel for the retry loop. -/
def Steal (fuel : Nat) (d : DState) : Option (Option Nat × DState) := stealLoop fuel d

/-- `IsEmpty` (deque.go lines 128–132). -/
def IsEmpty (d : DState) : Bool := d.head = d.tail

/-- The duplication trace: push task `a`, pop it, push task `b`, then
steal.  Every call runs to completion before the next starts (fuel 2
suffices for each loop except the second push, which needs one extra
iteration to help advance the stale tail).  Returns the pair
(task delivered by Pop, task delivered by Steal). -/
def dupTrace (a b : Nat) : Option (Option Nat × Option Nat) := do
  let d1 ← Push a 2 NewDeque
  let (r1, d2) ← Pop 2 d1
  let d3 ← Push b 3 d2
  let (r2, _) ← Steal 2 d3
  pure (r1, r2)

/-- The LIFO trace of the spec: push `a`, `b`, `c` then pop three times. -/
def lifoTrace (a b c : Nat) : Option (Option Nat × Option Nat × Option Nat) := do
  let d1 ← Push a 2 NewDeque
  let d2 ← Push b 2 d1
  let d3 ← Push c 2 d2
  let (r1, d4) ← Pop 2 d3
  let (r2, d5) ← Pop 2 d4
  let (r3, _) ← Pop 2 d5
  pure (r1, r2, r3)

/-- The FIFO trace of the spec: push `a`, `b`, `c` then steal once. -/
def fifoTrace (a b c : Nat) : Option (Option Nat) := do
  let d1 ← Push a 2 NewDeque
  let d2 ← Push b 2 d1
  let d3 ← Push c 2 d2
  let (r, _) ← Steal 2 d3
  pure r

end Deque

/-! ## Phase barrier (src/proj3/png/effects.go, lines 11–41)

`Wait` runs entirely under the barrier's mutex, so its body is one atomic
step from the point of view of the shared counters; we model that step as
`Wait1` and the condition-variable re-check `for localGen == b.generation`
as the release predicate `released`.  A call to `Wait` returns exactly
when either its own arrival was the threshold-reaching one, or `released`
holds for the generation it captured.  Fields are `Int` as in Go. -/

namespace Png

/-- `Barrier` from effects.go: waiting count, participant threshold, and
the phase generation counter. -/
structure Barrier where
  count : Int
  threshold : Int
  generation : Int
deriving DecidableEq, Repr

/-- `NewBarrier threshold`: counters start at zero. -/
def NewBarrier (threshold : Int) : Barrier := ⟨0, threshold, 0⟩

/-- The locked body of `Wait` (effects.go lines 29–40) up to the blocking
point: capture the generation, increment the count; the threshold-reaching
arrival resets the count and advances the generation.  Returns the
captured generation together with the new state. -/
def Wait1 (b : Barrier) : Int × Barrier :=
  let localGen := b.generation
  let c := b.count + 1
  if c = b.threshold then (localGen, { b with count := 0, generation := b.generation + 1 })
  else (localGen, { b with count := c })

/-- The exit condition of the wait loop `for localGen == b.generation`:
the waiter leaves the loop exactly when the generation moved past the one
it captured. -/
def released (b : Barrier) (localGen : Int) : Bool := localGen != b.generation

/-- `k` consecutive arrivals (`Wait1` steps, dropping the captured
generations). -/
def arrivals : Nat → Barrier → Barrier
  | 0, b => b
  | k + 1, b => arrivals k (Wait1 b).2

end Png

/-! ## Pixels, images and effects (src/proj3/png)

Pixel channels are the `[0, 65535]` values Go's `RGBA()` returns for an
`image.RGBA64`; a channel is a `Nat`.  The Go code accumulates convolution
sums in `float64`.  Every channel value and every sum of three channels
(at most 3·65535 < 2^53) is exactly representable in `float64`, so the
only inexact operation in `Grayscale` is the single division by 3, and a
round-to-nearest quotient `s/3` is within 2⁻³⁰ of the rational value while
the rational value is at distance 0 or ≥ 1/3 from any integer — hence the
truncated `float64` quotient equals the truncated rational quotient.  The
model therefore uses exact rational arithmetic (`ℚ`).  For the convolution
kernels the choice of numeric domain is immaterial to the claims proved
here, which compare two runs of the *same* per-pixel routine. -/

namespace Png

/-- One pixel as returned by `RGBA()`: four channels in `[0, 65535]`. -/
structure Pixel where
  r : Nat
  g : Nat
  b : Nat
  a : Nat
deriving DecidableEq, Repr

/-- A pixel buffer (`image.RGBA64`), as a total map from coordinates. -/
def Buf : Type := Int → Int → Pixel

/-- `image.Rectangle`: the bounds of an image. -/
structure Rect where
  minX : Int
  minY : Int
  maxX : Int
  maxY : Int
deriving DecidableEq, Repr

/-- Valid coordinate test `[Min.X, Max.X) × [Min.Y, Max.Y)` used by
`convolve` (effects.go line 88). -/
def inRect (bounds : Rect) (x y : Int) : Bool :=
  bounds.minX ≤ x && x < bounds.maxX && bounds.minY ≤ y && y < bounds.maxY

/-- `Image` from png.go: input buffer, output buffer, bounds, and the
`EffectsApplied` flag consulted by `Save`.  (`Load` always gives `In` and
`Out` the same bounds, so the model carries a single `Rect`.) -/
structure Image where
  In : Buf
  Out : Buf
  Bounds : Rect
  EffectsApplied : Bool

/-- `clamp` from png.go lines 293–295: `uint16(math.Min(65535,
math.Max(0, comp)))`; the final conversion truncates toward zero, and the
clamped value is non-negative, so it is a floor. -/
def clamp (comp : ℚ) : Nat := (⌊min 65535 (max 0 comp)⌋).toNat

/-- The sharpen kernel (effects.go line 108). -/
def sharpenKernel : List ℚ := [0, -1, 0, -1, 5, -1, 0, -1, 0]

/-- The edge-detection kernel (effects.go line 114). -/
def edgeKernel : List ℚ := [-1, -1, -1, -1, 8, -1, -1, -1, -1]

/-- The blur kernel (effects.go line 120). -/
def blurKernel : List ℚ :=
  [1/9, 1/9, 1/9, 1/9, 1/9, 1/9, 1/9, 1/9, 1/9]

/-- The `(dy, dx)` pairs of `convolve`'s nested loops, in loop order. -/
def neighborOffsets : List (Int × Int) :=
  [(-1, -1), (-1, 0), (-1, 1), (0, -1), (0, 0), (0, 1), (1, -1), (1, 0), (1, 1)]

/-- `convolve` (effects.go lines 71–104): weighted 3×3 sum per channel
with zero padding outside the bounds, kernel index `(dy+1)*3 + (dx+1)`,
then `clamp` on each channel. -/
def convolve (In : Buf) (bounds : Rect) (kernel : List ℚ) (x y : Int) :
    Nat × Nat × Nat :=
  let sums := neighborOffsets.foldl
    (fun (acc : ℚ × ℚ × ℚ) (d : Int × Int) =>
      let nx := x + d.2
      let ny := y + d.1
      if inRect bounds nx ny then
        let p := In nx ny
        let k := kernel.getD ((d.1 + 1) * 3 + (d.2 + 1)).toNat 0
        (acc.1 + p.r * k, acc.2.1 + p.g * k, acc.2.2 + p.b * k)
      else acc)
    (0, 0, 0)
  (clamp sums.1, clamp sums.2.1, clamp sums.2.2)

/-- The pixel written by the convolution loops: the three convolved
channels plus the alpha of the input pixel (effects.go lines 61–65). -/
def convolvedPixel (In : Buf) (bounds : Rect) (kernel : List ℚ) (x y : Int) :
    Pixel :=
  let c := convolve In bounds kernel x y
  ⟨c.1, c.2.1, c.2.2, (In x y).a⟩

/-- `convolution` (effects.go lines 55–68): the sequential whole-image
double loop writes every pixel of the bounds into `Out`; pixels outside
the bounds are untouched. -/
def convolution (img : Image) (kernel : List ℚ) : Image :=
  { img with Out := fun x y =>
      if inRect img.Bounds x y then convolvedPixel img.In img.Bounds kernel x y
      else img.Out x y }

/-- The grayscale channel value (effects.go line 141):
`clamp(float64(r+g+b) / 3)`, modelled exactly over ℚ. -/
def greyValue (p : Pixel) : Nat := clamp (((p.r : ℚ) + p.g + p.b) / 3)

/-- The pixel written by `Grayscale` (effects.go line 145): the grey value
in all three colour channels, alpha passed through. -/
def greyPixel (p : Pixel) : Pixel :=
  ⟨greyValue p, greyValue p, greyValue p, p.a⟩

/-- `Grayscale` (effects.go lines 125–148): the sequential double loop
over `img.Out.Bounds()` (equal to `img.Bounds` for loaded images). -/
def Grayscale (img : Image) : Image :=
  { img with Out := fun x y =>
      if inRect img.Bounds x y then greyPixel (img.In x y) else img.Out x y }

/-- `sliceHeight` of `BSPConvolution`/`BSPGrayscale` (effects.go line
170): `height / numThreads` with Go's truncating integer division. -/
def sliceHeight (bounds : Rect) (numThreads : Nat) : Int :=
  Int.tdiv (bounds.maxY - bounds.minY) numThreads

/-- Band `i`'s first row (effects.go line 176):
`bounds.Min.Y + i*sliceHeight`. -/
def sliceStartY (bounds : Rect) (W i : Nat) : Int :=
  bounds.minY + i * sliceHeight bounds W

/-- Band `i`'s end row (exclusive): `start + sliceHeight`, with the last
band clamped to `bounds.Max.Y` (effects.go lines 177–182). -/
def sliceEndY (bounds : Rect) (W i : Nat) : Int :=
  if i = W - 1 then bounds.maxY
  else sliceStartY bounds W i + sliceHeight bounds W

/-- Row `y` belongs to band `i` (the band goroutine's loop
`for y := startY; y < endY; y++`). -/
def inBand (bounds : Rect) (W i : Nat) (y : Int) : Bool :=
  sliceStartY bounds W i ≤ y && y < sliceEndY bounds W i

/-- Row `y` belongs to some of the `W` bands launched by the loop
`for i := 0; i < numThreads; i++`. -/
def inAnyBand (bounds : Rect) (W : Nat) (y : Int) : Bool :=
  (List.range W).any fun i => inBand bounds W i y

/-- `BSPConvolution` (effects.go lines 165–196): the combined effect, on
the output buffer, of the `W` band goroutines once the final barrier has
released — each band writes rows `[start, end)` across the full x-range,
reading only `In`.  A pixel outside every band is untouched. -/
def BSPConvolution (img : Image) (kernel : List ℚ) (W : Nat) : Image :=
  { img with Out := fun x y =>
      if inAnyBand img.Bounds W y && (img.Bounds.minX ≤ x && x < img.Bounds.maxX) then
        convolvedPixel img.In img.Bounds kernel x y
      else img.Out x y }

/-- `BSPGrayscale` (effects.go lines 216–242): band-parallel grayscale,
same band geometry as `BSPConvolution`. -/
def BSPGrayscale (img : Image) (W : Nat) : Image :=
  { img with Out := fun x y =>
      if inAnyBand img.Bounds W y && (img.Bounds.minX ≤ x && x < img.Bounds.maxX) then
        greyPixel (img.In x y)
      else img.Out x y }

/-- `SwapBuffers` (png.go lines 298–300). -/
def SwapBuffers (img : Image) : Image :=
  { img with In := img.Out, Out := img.In }

/-- The all-zero pixel of a freshly allocated `image.NewRGBA64` buffer. -/
def zeroPixel : Pixel := ⟨0, 0, 0, 0⟩

/-- `Load` (png.go lines 230–262): the input buffer holds the decoded
pixels, the output buffer is freshly allocated (all zero), and
`EffectsApplied` starts false. -/
def Load (inBuf : Buf) (bounds : Rect) : Image :=
  ⟨inBuf, fun _ _ => zeroPixel, bounds, false⟩

/-- `Save` (png.go lines 266–289): the buffer that gets encoded — `Out`
when effects were applied, otherwise `In`. -/
def savedImage (img : Image) : Buf :=
  if img.EffectsApplied then img.Out else img.In

/-- The prologue of `BSPConvolution` (effects.go lines 168–171) as run by
Go: when `numThreads = 0` the computation of `sliceHeight` panics with a
division-by-zero runtime error (aborting the run); otherwise it yields
the slice height and a barrier for `numThreads + 1` participants. -/
def BSPConvolutionSetup (height numThreads : Int) :
    Except String (Int × Barrier) :=
  if numThreads = 0 then Except.error "runtime error: integer divide by zero"
  else Except.ok (Int.tdiv height numThreads, NewBarrier (numThreads + 1))

/-- The number of band goroutines launched by
`for i := 0; i < numThreads; i++` (effects.go line 173): none when
`numThreads` is negative. -/
def launchCount (numThreads : Int) : Nat := numThreads.toNat

end Png

/-! ## Sliced pipeline (src/proj3/scheduler/bsp.go) -/

namespace Scheduler

/-- One arm of the `switch effect` in `applyEffectsSliced` (bsp.go lines
170–181): the four known identifiers dispatch to the BSP effects
(`BSPSharpen`/`BSPEdgeDetection`/`BSPBlur` are `BSPConvolution` with the
respective kernel); anything else panics `"unknown effect"`. -/
def applyEffect (img : Png.Image) (e : String) (W : Nat) :
    Except String Png.Image :=
  if e = "S" then Except.ok (Png.BSPConvolution img Png.sharpenKernel W)
  else if e = "E" then Except.ok (Png.BSPConvolution img Png.edgeKernel W)
  else if e = "B" then Except.ok (Png.BSPConvolution img Png.blurKernel W)
  else if e = "G" then Except.ok (Png.BSPGrayscale img W)
  else Except.error "unknown effect"

/-- `applyEffectsSliced` (bsp.go lines 168–187): apply each effect in
order, swapping the buffers between effects (`if i < len(effects)-1`);
a panic aborts immediately. -/
def applyEffectsSliced (img : Png.Image) :
    List String → Nat → Except String Png.Image
  | [], _ => Except.ok img
  | [e], W => applyEffect img e W
  | e :: e' :: rest, W =>
    match applyEffect img e W with
    | Except.error s => Except.error s
    | Except.ok img1 => applyEffectsSliced (Png.SwapBuffers img1) (e' :: rest) W

/-- `processImageBSP` (bsp.go lines 146–165) composed with `Save`: with a
non-empty effect list the image is marked `EffectsApplied` and the sliced
pipeline runs; the buffer that would be encoded to disk is returned. -/
def processSaved (img : Png.Image) (effects : List String) (W : Nat) :
    Except String Png.Buf :=
  if effects.length > 0 then
    match applyEffectsSliced { img with EffectsApplied := true } effects W with
    | Except.error s => Except.error s
    | Except.ok img1 => Except.ok (Png.savedImage img1)
  else Except.ok (Png.savedImage img)

/-- Read the saved buffer out of a pipeline result (zero buffer if the
pipeline aborted). -/
def savedBuf (res : Except String Png.Buf) : Png.Buf :=
  match res with
  | Except.ok f => f
  | Except.error _ => fun _ _ => Png.zeroPixel

/-- `make([]*Worker, numWorkers)` in `RunBSPSteal` (bsp.go line 93): Go's
`make` panics for a negative length; otherwise the worker ids
`0, …, numWorkers-1` are created. -/
def makeWorkers (numWorkers : Int) : Except String (List Nat) :=
  if numWorkers < 0 then Except.error "makeslice: len out of range"
  else Except.ok (List.range numWorkers.toNat)

end Scheduler

namespace Png

/-- Characterisation of the barrier counters after `k` arrivals at a
positive threshold: the count is `k mod N` and the generation `k div N`. -/
theorem arrivals_count_generation (N : Int) (hN : 1 ≤ N) (k : Nat) :
    (arrivals k (NewBarrier N)).count = (k : Int) % N ∧
      (arrivals k (NewBarrier N)).generation = (k : Int) / N ∧
      (arrivals k (NewBarrier N)).threshold = N := by
  have hpos : 0 < N := hN
  suffices h : ∀ (k : Nat) (b : Barrier), b.threshold = N →
      0 ≤ b.count → b.count < N →
      (arrivals k b).count = (b.count + k) % N ∧
        (arrivals k b).generation = b.generation + (b.count + k) / N ∧
        (arrivals k b).threshold = N by
    have := h k (NewBarrier N) rfl le_rfl hpos
    simpa [NewBarrier] using this
  intro k
  induction k with
  | zero =>
    intro b hthr hc0 hcN
    refine ⟨?_, ?_, hthr⟩
    · simpa [arrivals] using (Int.emod_eq_of_lt hc0 hcN).symm
    · have : b.count / N = 0 := Int.ediv_eq_zero_of_lt hc0 hcN
      simp [arrivals, this]
  | succ k ih =>
    intro b hthr hc0 hcN
    by_cases hfull : b.count + 1 = N
    · have hstep : (Wait1 b).2 = ⟨0, b.threshold, b.generation + 1⟩ := by
        simp [Wait1, hthr, hfull]
      have harr : arrivals (k + 1) b = arrivals k ⟨0, b.threshold, b.generation + 1⟩ := by
        rw [arrivals, hstep]
      have hrec := ih ⟨0, b.threshold, b.generation + 1⟩ hthr le_rfl hpos
      have hk : ((0 : Int) + (k : Nat)) = (k : Int) := by omega
      have hbk : b.count + ((k : Nat) + 1 : Int) = N + k := by omega
      have hcast : ((k + 1 : Nat) : Int) = (k : Nat) + 1 := by push_cast; ring
      refine ⟨?_, ?_, by rw [harr]; exact hrec.2.2⟩
      · rw [harr, hrec.1, hk, hcast, hbk]
        have hform : N + (k : Int) = (k : Int) + N * 1 := by ring
        rw [hform, Int.add_mul_emod_self_left]
      · rw [harr, hrec.2.1, hk, hcast, hbk]
        have hdvd : (N + (k : Int)) / N = 1 + (k : Int) / N := by
          rw [Int.add_ediv_of_dvd_left ⟨1, by ring⟩, Int.ediv_self (by omega)]
        rw [hdvd]
        ring
    · have hstep : (Wait1 b).2 = ⟨b.count + 1, b.threshold, b.generation⟩ := by
        simp [Wait1, hthr, hfull]
      have harr : arrivals (k + 1) b = arrivals k ⟨b.count + 1, b.threshold, b.generation⟩ := by
        rw [arrivals, hstep]
      have hrec := ih ⟨b.count + 1, b.threshold, b.generation⟩ hthr
        (show (0 : Int) ≤ b.count + 1 by omega) (show b.count + 1 < N by omega)
      have hshift : b.count + 1 + ((k : Nat) : Int) = b.count + ((k + 1 : Nat) : Int) := by
        push_cast; ring
      refine ⟨?_, ?_, by rw [harr]; exact hrec.2.2⟩
      · rw [harr, hrec.1, hshift]
      · rw [harr, hrec.2.1, hshift]

/-- Monotonicity of the generation counter under arrivals. -/
theorem arrivals_generation_mono (k : Nat) (b : Barrier) :
    b.generation ≤ (arrivals k b).generation := by
  induction k generalizing b with
  | zero => exact le_refl _
  | succ k ih =>
    have hstep : b.generation ≤ (Wait1 b).2.generation := by
      unfold Wait1
      by_cases h : b.count + 1 = b.threshold <;> simp [h]
    calc b.generation ≤ (Wait1 b).2.generation := hstep
      _ ≤ (arrivals k (Wait1 b).2).generation := ih _

/-- With a non-positive threshold and at least one waiter already counted,
no number of further arrivals ever advances the generation: the count only
grows and never equals the threshold again. -/
theorem arrivals_stuck (k : Nat) (b : Barrier) (ht : b.threshold ≤ 0)
    (hc : 1 ≤ b.count) :
    (arrivals k b).generation = b.generation ∧ 1 ≤ (arrivals k b).count := by
  induction k generalizing b with
  | zero => exact ⟨rfl, hc⟩
  | succ k ih =>
    have hne : ¬(b.count + 1 = b.threshold) := by omega
    have hstep : (Wait1 b).2 = ⟨b.count + 1, b.threshold, b.generation⟩ := by
      simp [Wait1, hne]
    have harr : arrivals (k + 1) b = arrivals k ⟨b.count + 1, b.threshold, b.generation⟩ := by
      rw [arrivals, hstep]
    rw [harr]
    exact ih ⟨b.count + 1, b.threshold, b.generation⟩ ht
      (show (1 : Int) ≤ b.count + 1 by omega)

end Png

/-- Claim C1: the spec requires that every task pushed on a deque is
delivered exactly once across all successful Pop and Steal calls.  The
code violates this: in the purely sequential call sequence
`Push a; Pop; Push b; Steal` (a special case of an interleaving, every
call completing before the next starts), `Pop` delivers `a` and the later
`Steal` delivers `a` a second time, because `Pop` retracts the tail
pointer without unlinking the popped node and the next `Push` helps the
stale `next` link back into the chain. -/
theorem C1_deque_delivers_task_twice (a b : Nat) :
    Deque.dupTrace a b = some (some a, some a) := rfl

/-- Claim C2: in single-threaded use, after pushing `a`, `b`, `c` in that
order, three successive Pops return `c`, `b`, `a` (LIFO), and after
pushing `a`, `b`, `c` with no intervening Pop the first successful Steal
returns `a` (FIFO). -/
theorem C2_deque_sequential_lifo_fifo (a b c : Nat) :
    Deque.lifoTrace a b c = some (some c, some b, some a) ∧
      Deque.fifoTrace a b c = some (some a) := ⟨rfl, rfl⟩

/-- Claim C8: an empty effect list leaves the image unmodified —
`applyEffectsSliced` with `effects = []` returns the image unchanged
(no write to either buffer), and since `EffectsApplied` stays false the
pipeline saves the loaded input buffer pixel-for-pixel. -/
theorem C8_empty_effects_identity (img : Png.Image) (inBuf : Png.Buf)
    (bounds : Png.Rect) (W W' : Nat) :
    Scheduler.applyEffectsSliced img [] W = Except.ok img ∧
      Scheduler.processSaved (Png.Load inBuf bounds) [] W' = Except.ok inBuf :=
  ⟨rfl, rfl⟩

/-- Claim C3: the barrier state invariant.  After `k` arrivals at a
barrier of threshold `N ≥ 1` the count is `k mod N` and the generation is
`k div N` (so the count is reset to 0 and the generation incremented
exactly on every `N`-th arrival); one further arrival resets the count
and advances the generation exactly when it is the `N`-th of its phase;
and a waiter that captured generation `g` passes the release check
`localGen != generation` exactly when the generation has moved strictly
past `g` — a wake signal of an earlier phase (generation still equal to
`g`) never releases it. -/
theorem C3_barrier_generation_invariant (N : Int) (hN : 1 ≤ N) (k : Nat) (g : Int) :
    ((Png.arrivals k (Png.NewBarrier N)).count = (k : Int) % N ∧
      (Png.arrivals k (Png.NewBarrier N)).generation = (k : Int) / N) ∧
    (((Png.Wait1 (Png.arrivals k (Png.NewBarrier N))).2.generation =
          (Png.arrivals k (Png.NewBarrier N)).generation + 1 ∧
        (Png.Wait1 (Png.arrivals k (Png.NewBarrier N))).2.count = 0) ↔
      (Png.arrivals k (Png.NewBarrier N)).count + 1 = N) ∧
    (g ≤ (Png.arrivals k (Png.NewBarrier N)).generation →
      (Png.released (Png.arrivals k (Png.NewBarrier N)) g = true ↔
        g < (Png.arrivals k (Png.NewBarrier N)).generation)) := by
  obtain ⟨h1, h2, h3⟩ := Png.arrivals_count_generation N hN k
  refine ⟨⟨h1, h2⟩, ?_, ?_⟩
  · unfold Png.Wait1
    by_cases hfull : (Png.arrivals k (Png.NewBarrier N)).count + 1 =
        (Png.arrivals k (Png.NewBarrier N)).threshold
    · simp only [hfull, if_pos rfl]
      constructor
      · intro _; omega
      · intro _; exact ⟨rfl, rfl⟩
    · simp only [if_neg hfull]
      constructor
      · intro hcontra; omega
      · intro hcontra; omega
  · intro hg
    simp only [Png.released, bne_iff_ne, ne_eq]
    omega

/-- Claim C3, witness at `N = 2`, `k = 3`, `g = 1`. -/
theorem C3_barrier_generation_invariant_witness :
    ((Png.arrivals 3 (Png.NewBarrier 2)).count = (3 : Int) % 2 ∧
      (Png.arrivals 3 (Png.NewBarrier 2)).generation = (3 : Int) / 2) ∧
    (((Png.Wait1 (Png.arrivals 3 (Png.NewBarrier 2))).2.generation =
          (Png.arrivals 3 (Png.NewBarrier 2)).generation + 1 ∧
        (Png.Wait1 (Png.arrivals 3 (Png.NewBarrier 2))).2.count = 0) ↔
      (Png.arrivals 3 (Png.NewBarrier 2)).count + 1 = 2) ∧
    ((1 : Int) ≤ (Png.arrivals 3 (Png.NewBarrier 2)).generation →
      (Png.released (Png.arrivals 3 (Png.NewBarrier 2)) 1 = true ↔
        (1 : Int) < (Png.arrivals 3 (Png.NewBarrier 2)).generation)) :=
  C3_barrier_generation_invariant 2 (by norm_num) 3 1

/-- Claim C5, counterexample: at `numThreads = -1` (a negative worker
count) `BSPConvolution` does not abort — its prologue succeeds, the band
loop launches zero goroutines, and after the main thread's own
`barrier.Wait()` arrival the release check stays false even after five
further (hypothetical) arrivals: the run hangs instead of aborting. -/
theorem C5_counterexample_negative_worker_count :
    Png.BSPConvolutionSetup 4 (-1) = Except.ok (-4, Png.NewBarrier 0) ∧
    Png.launchCount (-1) = 0 ∧
    Png.released (Png.arrivals 5 (Png.Wait1 (Png.NewBarrier 0)).2)
        (Png.Wait1 (Png.NewBarrier 0)).1 = false :=
  ⟨rfl, rfl, by decide⟩

/-- Claim C5 (amended): a zero worker count aborts the run at the point
of use (`BSPConvolution` panics on the division `height / numThreads`,
and `RunBSPSteal`'s `make([]*Worker, n)` panics for any negative count);
but `BSPConvolution` invoked with a negative worker count does not
abort: its prologue succeeds, no band goroutine is launched, and the main
thread's `barrier.Wait()` blocks forever — the barrier threshold
`numThreads + 1 ≤ 0` can never be reached, so no number of arrivals ever
satisfies the release check. -/
theorem C5_zero_aborts_negative_hangs (h t : Int) (ht : t < 0) :
    Png.BSPConvolutionSetup h 0 =
        Except.error "runtime error: integer divide by zero" ∧
    Scheduler.makeWorkers t = Except.error "makeslice: len out of range" ∧
    Png.BSPConvolutionSetup h t =
        Except.ok (Int.tdiv h t, Png.NewBarrier (t + 1)) ∧
    Png.launchCount t = 0 ∧
    ∀ k : Nat,
      Png.released (Png.arrivals k (Png.Wait1 (Png.NewBarrier (t + 1))).2)
          (Png.Wait1 (Png.NewBarrier (t + 1))).1 = false := by
  refine ⟨by simp [Png.BSPConvolutionSetup], ?_, ?_, ?_, ?_⟩
  · simp [Scheduler.makeWorkers, ht]
  · simp [Png.BSPConvolutionSetup, show t ≠ 0 by omega]
  · simp only [Png.launchCount]
    omega
  · intro k
    have hstep : (Png.Wait1 (Png.NewBarrier (t + 1))).2 = ⟨1, t + 1, 0⟩ := by
      simp only [Png.Wait1, Png.NewBarrier]
      split
      · exfalso; omega
      · rfl
    have hgen : (Png.Wait1 (Png.NewBarrier (t + 1))).1 = 0 := by
      simp only [Png.Wait1, Png.NewBarrier]
      split <;> rfl
    rw [hstep, hgen]
    have hstuck := Png.arrivals_stuck k ⟨1, t + 1, 0⟩
      (show t + 1 ≤ 0 by omega) (le_refl 1)
    simp only [Png.released, hstuck.1, bne_self_eq_false]

/-- Claim C5 (amended), witness at `h = 4`, `t = -1`. -/
theorem C5_zero_aborts_negative_hangs_witness :
    Png.BSPConvolutionSetup 4 0 =
        Except.error "runtime error: integer divide by zero" ∧
    Scheduler.makeWorkers (-1) = Except.error "makeslice: len out of range" ∧
    Png.BSPConvolutionSetup 4 (-1) =
        Except.ok (Int.tdiv 4 (-1), Png.NewBarrier (-1 + 1)) ∧
    Png.launchCount (-1) = 0 ∧
    ∀ k : Nat,
      Png.released (Png.arrivals k (Png.Wait1 (Png.NewBarrier (-1 + 1))).2)
          (Png.Wait1 (Png.NewBarrier (-1 + 1))).1 = false :=
  C5_zero_aborts_negative_hangs 4 (-1) (by norm_num)

/-- An identifier outside the closed set makes `applyEffect` fall through
to the `default: panic("unknown effect")` arm. -/
theorem applyEffect_of_not_mem (img : Png.Image) (W : Nat) (e : String)
    (he : e ∉ (["S", "E", "B", "G"] : List String)) :
    Scheduler.applyEffect img e W = Except.error "unknown effect" := by
  simp only [List.mem_cons, List.not_mem_nil, or_false, not_or] at he
  obtain ⟨h1, h2, h3, h4⟩ := he
  simp [Scheduler.applyEffect, h1, h2, h3, h4]

/-- Every identifier of the closed set dispatches to a BSP effect and
succeeds. -/
theorem applyEffect_of_mem (img : Png.Image) (W : Nat) (e : String)
    (he : e ∈ (["S", "E", "B", "G"] : List String)) :
    ∃ img', Scheduler.applyEffect img e W = Except.ok img' := by
  fin_cases he <;> exact ⟨_, rfl⟩

/-- Unfolding of `applyEffectsSliced` on a list with at least two
effects. -/
theorem applyEffectsSliced_cons_of_ne_nil (img : Png.Image) (W : Nat)
    (p : String) (L : List String) (hL : L ≠ []) :
    Scheduler.applyEffectsSliced img (p :: L) W =
      match Scheduler.applyEffect img p W with
      | Except.error s => Except.error s
      | Except.ok img1 =>
        Scheduler.applyEffectsSliced (Png.SwapBuffers img1) L W := by
  cases L with
  | nil => exact absurd rfl hL
  | cons x xs => rfl

/-- `applyEffectsSliced` succeeds exactly when every identifier is in the
closed set. -/
theorem applyEffectsSliced_ok_iff (effects : List String) :
    ∀ (img : Png.Image) (W : Nat),
      (∃ img', Scheduler.applyEffectsSliced img effects W = Except.ok img') ↔
        ∀ e ∈ effects, e ∈ (["S", "E", "B", "G"] : List String) := by
  induction effects with
  | nil =>
    intro img W
    simp [Scheduler.applyEffectsSliced]
  | cons e rest ih =>
    intro img W
    cases rest with
    | nil =>
      by_cases he : e ∈ (["S", "E", "B", "G"] : List String)
      · obtain ⟨i1, hi1⟩ := applyEffect_of_mem img W e he
        rw [show Scheduler.applyEffectsSliced img [e] W =
              Scheduler.applyEffect img e W from rfl, hi1]
        constructor
        · intro _ x hx
          rw [List.mem_singleton] at hx
          rwa [hx]
        · intro _
          exact ⟨i1, rfl⟩
      · rw [show Scheduler.applyEffectsSliced img [e] W =
              Scheduler.applyEffect img e W from rfl,
            applyEffect_of_not_mem img W e he]
        constructor
        · rintro ⟨img', himg⟩
          exact absurd himg (by simp)
        · intro hall
          exact absurd (hall e (by simp)) he
    | cons e' rest' =>
      rw [applyEffectsSliced_cons_of_ne_nil img W e (e' :: rest') (by simp)]
      by_cases he : e ∈ (["S", "E", "B", "G"] : List String)
      · obtain ⟨i1, hi1⟩ := applyEffect_of_mem img W e he
        rw [hi1]
        rw [show (match Except.ok i1 with
              | Except.error s => (Except.error s : Except String Png.Image)
              | Except.ok img1 =>
                Scheduler.applyEffectsSliced (Png.SwapBuffers img1) (e' :: rest') W) =
            Scheduler.applyEffectsSliced (Png.SwapBuffers i1) (e' :: rest') W from rfl]
        rw [ih (Png.SwapBuffers i1) W]
        simp only [List.forall_mem_cons]
        tauto
      · rw [applyEffect_of_not_mem img W e he]
        constructor
        · rintro ⟨img', himg⟩
          exact absurd himg (by simp)
        · intro hall
          exact absurd (hall e (by simp)) he

/-- A well-formed prefix never aborts, and the first unknown identifier
does, whatever follows it. -/
theorem applyEffectsSliced_first_unknown (pre : List String) :
    ∀ (img : Png.Image) (W : Nat) (e : String) (post : List String),
      (∀ x ∈ pre, x ∈ (["S", "E", "B", "G"] : List String)) →
      e ∉ (["S", "E", "B", "G"] : List String) →
      Scheduler.applyEffectsSliced img (pre ++ e :: post) W =
        Except.error "unknown effect" := by
  induction pre with
  | nil =>
    intro img W e post _ he
    cases post with
    | nil =>
      rw [List.nil_append,
        show Scheduler.applyEffectsSliced img [e] W =
          Scheduler.applyEffect img e W from rfl]
      exact applyEffect_of_not_mem img W e he
    | cons p ps =>
      rw [List.nil_append,
        applyEffectsSliced_cons_of_ne_nil img W e (p :: ps) (by simp),
        applyEffect_of_not_mem img W e he]
  | cons p pre' ih =>
    intro img W e post hpre he
    have hp : p ∈ (["S", "E", "B", "G"] : List String) := hpre p (by simp)
    obtain ⟨i1, hi1⟩ := applyEffect_of_mem img W p hp
    rw [List.cons_append,
      applyEffectsSliced_cons_of_ne_nil img W p (pre' ++ e :: post) (by simp), hi1]
    exact ih (Png.SwapBuffers i1) W e post (fun x hx => hpre x (by simp [hx])) he

/-- Claim C7: applying an effect list with an identifier outside
`{"S", "E", "B", "G"}` makes `applyEffectsSliced` panic at the first
unknown identifier it reaches (whatever follows it), and the pipeline
never panics for this reason when every identifier belongs to the set. -/
theorem C7_unknown_effect_aborts (img : Png.Image) (W : Nat)
    (effects pre post : List String) (e : String) :
    ((∃ img', Scheduler.applyEffectsSliced img effects W = Except.ok img') ↔
      ∀ x ∈ effects, x ∈ (["S", "E", "B", "G"] : List String)) ∧
    ((∀ x ∈ pre, x ∈ (["S", "E", "B", "G"] : List String)) →
      e ∉ (["S", "E", "B", "G"] : List String) →
      Scheduler.applyEffectsSliced img (pre ++ e :: post) W =
        Except.error "unknown effect") :=
  ⟨applyEffectsSliced_ok_iff effects img W,
    fun hpre he => applyEffectsSliced_first_unknown pre img W e post hpre he⟩

/-- Claim C7, witness: the list `["G", "X", "S"]` aborts with
`"unknown effect"` on the unknown identifier `"X"`. -/
theorem C7_unknown_effect_aborts_witness :
    Scheduler.applyEffectsSliced
        (Png.Load (fun _ _ => Png.zeroPixel) ⟨0, 0, 1, 1⟩)
        (["G"] ++ "X" :: ["S"]) 1 = Except.error "unknown effect" :=
  (C7_unknown_effect_aborts (Png.Load (fun _ _ => Png.zeroPixel) ⟨0, 0, 1, 1⟩)
      1 [] ["G"] ["S"] "X").2 (by decide) (by decide)

/-- For a sum of three channels, Go's `clamp(float64(s)/3)` equals
truncated integer division: the clamp bounds are inactive and the floor
of the exact quotient is `s / 3`. -/
theorem clamp_div3 (s : Nat) (hs : s ≤ 196605) :
    Png.clamp ((s : ℚ) / 3) = s / 3 := by
  unfold Png.clamp
  have h0 : (0 : ℚ) ≤ (s : ℚ) / 3 := by positivity
  have hle : (s : ℚ) / 3 ≤ 65535 := by
    rw [div_le_iff₀ (by norm_num : (0 : ℚ) < 3)]
    have : (s : ℚ) ≤ 196605 := by exact_mod_cast hs
    linarith
  rw [max_eq_right h0, min_eq_right hle]
  have hcast : ((s : ℚ) / 3) = ((s : ℤ) : ℚ) / ((3 : ℕ) : ℚ) := by push_cast; ring
  rw [hcast, Rat.floor_intCast_div_natCast]
  have h3 : ((s : ℤ) / ((3 : ℕ) : ℤ)) = ((s / 3 : ℕ) : ℤ) := by omega
  rw [h3, Int.toNat_natCast]

/-- `clamp` never exceeds the channel range. -/
theorem clamp_le (c : ℚ) : Png.clamp c ≤ 65535 := by
  unfold Png.clamp
  have h1 : ⌊min (65535 : ℚ) (max 0 c)⌋ ≤ 65535 := by
    have := Int.floor_le_floor (min_le_left (65535 : ℚ) (max 0 c))
    simpa using this
  omega

/-- `clamp` is the identity on in-range channel values. -/
theorem clamp_natCast (v : Nat) (hv : v ≤ 65535) : Png.clamp (v : ℚ) = v := by
  unfold Png.clamp
  rw [max_eq_right (by positivity), min_eq_right (by exact_mod_cast hv),
    Int.floor_natCast, Int.toNat_natCast]

/-- The grey channel is the truncated integer average of the three
colour channels whenever they are in range. -/
theorem greyValue_eq (p : Png.Pixel) (hr : p.r ≤ 65535) (hg : p.g ≤ 65535)
    (hb : p.b ≤ 65535) : Png.greyValue p = (p.r + p.g + p.b) / 3 := by
  unfold Png.greyValue
  have hcast : ((p.r : ℚ) + p.g + p.b) = ((p.r + p.g + p.b : ℕ) : ℚ) := by
    push_cast; ring
  rw [hcast, clamp_div3 _ (by omega)]

/-- The grey value is always an in-range channel value. -/
theorem greyValue_le (p : Png.Pixel) : Png.greyValue p ≤ 65535 := clamp_le _

/-- Averaging an already grey pixel is a fixed point. -/
theorem greyPixel_idem (p : Png.Pixel) :
    Png.greyPixel (Png.greyPixel p) = Png.greyPixel p := by
  have hv : Png.greyValue (Png.greyPixel p) = Png.greyValue p := by
    show Png.clamp (((Png.greyValue p : ℚ) + Png.greyValue p + Png.greyValue p) / 3) =
      Png.greyValue p
    have h3 : ((Png.greyValue p : ℚ) + Png.greyValue p + Png.greyValue p) / 3 =
        (Png.greyValue p : ℚ) := by ring
    rw [h3, clamp_natCast _ (greyValue_le p)]
  show (⟨Png.greyValue (Png.greyPixel p), Png.greyValue (Png.greyPixel p),
      Png.greyValue (Png.greyPixel p), (Png.greyPixel p).a⟩ : Png.Pixel) =
    Png.greyPixel p
  rw [hv]
  rfl

/-- Claim C6: for every in-range input pixel the grayscale effect writes
a pixel whose three colour channels all equal the truncated unweighted
average of the input's colour channels, with alpha copied through; in
particular channels `(25, 75, 250)` yield `(116, 116, 116, alpha)`. -/
theorem C6_grayscale_truncated_average (p : Png.Pixel) (hr : p.r ≤ 65535)
    (hg : p.g ≤ 65535) (hb : p.b ≤ 65535) :
    Png.greyPixel p =
      ⟨(p.r + p.g + p.b) / 3, (p.r + p.g + p.b) / 3, (p.r + p.g + p.b) / 3, p.a⟩ ∧
    (∀ (img : Png.Image) (x y : Int), Png.inRect img.Bounds x y = true →
      (Png.Grayscale img).Out x y = Png.greyPixel (img.In x y)) ∧
    Png.greyPixel ⟨25, 75, 250, p.a⟩ = ⟨116, 116, 116, p.a⟩ := by
  refine ⟨?_, ?_, ?_⟩
  · unfold Png.greyPixel
    rw [greyValue_eq p hr hg hb]
  · intro img x y hxy
    simp [Png.Grayscale, hxy]
  · have h116 : Png.greyValue ⟨25, 75, 250, p.a⟩ = 116 := by
      rw [greyValue_eq ⟨25, 75, 250, p.a⟩ (show 25 ≤ 65535 by decide)
        (show 75 ≤ 65535 by decide) (show 250 ≤ 65535 by decide)]
      norm_num
    unfold Png.greyPixel
    rw [h116]

/-- Claim C6, witness at the spec's example pixel `(25, 75, 250, 7)`. -/
theorem C6_grayscale_truncated_average_witness :
    Png.greyPixel ⟨25, 75, 250, 7⟩ = ⟨116, 116, 116, 7⟩ :=
  (C6_grayscale_truncated_average ⟨25, 75, 250, 7⟩ (by decide) (by decide)
    (by decide)).2.2

/-- Nat-level coverage of the band decomposition with `q = hh / W`: every
row index `r < hh` lies in some band (the last band absorbs the
remainder). -/
theorem bandNat_cover (W q hh r : Nat) (hW : 1 ≤ W) (hq : q = hh / W)
    (hr : r < hh) :
    ∃ i, i < W ∧ i * q ≤ r ∧ (if i = W - 1 then r < hh else r < (i + 1) * q) := by
  by_cases hq0 : q = 0
  · refine ⟨W - 1, by omega, by simp [hq0], ?_⟩
    rw [if_pos rfl]
    exact hr
  · by_cases hlast : W - 1 ≤ r / q
    · refine ⟨W - 1, by omega, ?_, ?_⟩
      · calc (W - 1) * q ≤ r / q * q := Nat.mul_le_mul_right q hlast
          _ ≤ r := Nat.div_mul_le_self r q
      · rw [if_pos rfl]
        exact hr
    · refine ⟨r / q, by omega, Nat.div_mul_le_self r q, ?_⟩
      rw [if_neg (by omega)]
      have h1 := Nat.div_add_mod r q
      have h2 : r % q < q := Nat.mod_lt r (by omega)
      have h3 : (r / q + 1) * q = q * (r / q) + q := by ring
      omega

/-- Nat-level soundness: a row index inside any band is below `hh`. -/
theorem bandNat_in_range (W q hh r i : Nat) (hq : q = hh / W) (hi : i < W)
    (hend : if i = W - 1 then r < hh else r < (i + 1) * q) : r < hh := by
  by_cases hiW : i = W - 1
  · rwa [if_pos hiW] at hend
  · rw [if_neg hiW] at hend
    have h1 : (i + 1) * q ≤ W * q := Nat.mul_le_mul_right q (by omega)
    have h2 : W * q ≤ hh := by
      calc W * q = q * W := by ring
        _ = hh / W * W := by rw [hq]
        _ ≤ hh := Nat.div_mul_le_self hh W
    omega

/-- Nat-level disjointness: a row index lies in at most one band. -/
theorem bandNat_unique (W q hh : Nat) :
    ∀ i j r, i < W → j < W →
      i * q ≤ r → (if i = W - 1 then r < hh else r < (i + 1) * q) →
      j * q ≤ r → (if j = W - 1 then r < hh else r < (j + 1) * q) → i = j := by
  have aux : ∀ i j r, i < W → j < W →
      (if i = W - 1 then r < hh else r < (i + 1) * q) → j * q ≤ r → i < j →
      False := by
    intro i j r hi hj hie hjs hij
    have hiW : i ≠ W - 1 := by omega
    rw [if_neg hiW] at hie
    have hmul : (i + 1) * q ≤ j * q := Nat.mul_le_mul_right q (by omega)
    omega
  intro i j r hi hj his hie hjs hje
  rcases lt_trichotomy i j with h | h | h
  · exact (aux i j r hi hj hie hjs h).elim
  · exact h
  · exact (aux j i r hj hi hje his h).elim

/-- With a non-negative height, Go's truncated `height / numThreads` is
the natural-number division of the height. -/
theorem sliceHeight_eq (b : Png.Rect) (W : Nat) (hb : b.minY ≤ b.maxY) :
    Png.sliceHeight b W = (((b.maxY - b.minY).toNat / W : Nat) : Int) := by
  unfold Png.sliceHeight
  have h1 : b.maxY - b.minY = ((b.maxY - b.minY).toNat : Int) := by omega
  rw [h1]
  exact (Int.ofNat_tdiv _ _).symm

/-- Band membership in terms of the Nat row index `r = (y - minY).toNat`. -/
theorem inBand_iff_nat (b : Png.Rect) (W i : Nat) (y : Int)
    (hb : b.minY ≤ b.maxY) :
    Png.inBand b W i y = true ↔
      (b.minY ≤ y ∧
        i * ((b.maxY - b.minY).toNat / W) ≤ (y - b.minY).toNat ∧
        (if i = W - 1 then (y - b.minY).toNat < (b.maxY - b.minY).toNat
         else (y - b.minY).toNat <
          (i + 1) * ((b.maxY - b.minY).toNat / W))) := by
  have hs := sliceHeight_eq b W hb
  unfold Png.inBand Png.sliceEndY Png.sliceStartY
  simp only [Bool.and_eq_true, decide_eq_true_eq, hs]
  have hiq : ((i : Int)) * (((b.maxY - b.minY).toNat / W : Nat) : Int) =
      ((i * ((b.maxY - b.minY).toNat / W) : Nat) : Int) := by push_cast; ring
  have hi1q : (((i : Int)) + 1) * (((b.maxY - b.minY).toNat / W : Nat) : Int) =
      (((i + 1) * ((b.maxY - b.minY).toNat / W) : Nat) : Int) := by
    push_cast; ring
  have hhh : (b.maxY : Int) = b.minY + ((b.maxY - b.minY).toNat : Int) := by
    omega
  by_cases hiW : i = W - 1
  · rw [if_pos hiW, if_pos hiW]
    constructor
    · rintro ⟨h1, h2⟩
      rw [hiq] at h1
      exact ⟨by omega, by omega, by omega⟩
    · rintro ⟨h1, h2, h3⟩
      rw [hiq]
      exact ⟨by omega, by omega⟩
  · rw [if_neg hiW, if_neg hiW]
    constructor
    · rintro ⟨h1, h2⟩
      rw [hiq] at h1
      rw [hiq] at h2
      have h2' : y < b.minY +
          (((i + 1) * ((b.maxY - b.minY).toNat / W) : Nat) : Int) := by
        rw [← hi1q]
        push_cast at h2 ⊢
        linarith
      exact ⟨by omega, by omega, by omega⟩
    · rintro ⟨h1, h2, h3⟩
      rw [hiq]
      refine ⟨by omega, ?_⟩
      have h4 : y - b.minY <
          (((i + 1) * ((b.maxY - b.minY).toNat / W) : Nat) : Int) := by omega
      rw [← hi1q] at h4
      push_cast at h4 ⊢
      linarith

/-- The union of the `W` launched bands is exactly the row range
`[minY, maxY)`. -/
theorem inAnyBand_iff (b : Png.Rect) (W : Nat) (hW : 1 ≤ W)
    (hb : b.minY ≤ b.maxY) (y : Int) :
    Png.inAnyBand b W y = true ↔ (b.minY ≤ y ∧ y < b.maxY) := by
  unfold Png.inAnyBand
  rw [List.any_eq_true]
  constructor
  · rintro ⟨i, hmem, hband⟩
    rw [List.mem_range] at hmem
    rw [inBand_iff_nat b W i y hb] at hband
    obtain ⟨h1, h2, h3⟩ := hband
    have hlt := bandNat_in_range W ((b.maxY - b.minY).toNat / W)
      (b.maxY - b.minY).toNat (y - b.minY).toNat i rfl hmem h3
    exact ⟨h1, by omega⟩
  · rintro ⟨h1, h2⟩
    obtain ⟨i, hi, hs, he⟩ := bandNat_cover W ((b.maxY - b.minY).toNat / W)
      (b.maxY - b.minY).toNat (y - b.minY).toNat hW rfl (by omega)
    refine ⟨i, List.mem_range.mpr hi, ?_⟩
    rw [inBand_iff_nat b W i y hb]
    exact ⟨h1, hs, he⟩

/-- Claim C4: for every image with non-negative height and every worker
count `W ≥ 1`, the row bands computed by `BSPConvolution` are pairwise
disjoint and their union is exactly the full row range
`[Min.Y, Max.Y)` — every row is covered exactly once. -/
theorem C4_bands_partition_rows (bounds : Png.Rect) (W : Nat) (hW : 1 ≤ W)
    (hb : bounds.minY ≤ bounds.maxY) :
    (∀ y : Int,
      Png.inAnyBand bounds W y = true ↔ (bounds.minY ≤ y ∧ y < bounds.maxY)) ∧
    (∀ (i j : Nat) (y : Int), i < W → j < W →
      Png.inBand bounds W i y = true → Png.inBand bounds W j y = true →
      i = j) := by
  constructor
  · exact fun y => inAnyBand_iff bounds W hW hb y
  · intro i j y hi hj hbi hbj
    rw [inBand_iff_nat bounds W i y hb] at hbi
    rw [inBand_iff_nat bounds W j y hb] at hbj
    exact bandNat_unique W ((bounds.maxY - bounds.minY).toNat / W)
      (bounds.maxY - bounds.minY).toNat i j (y - bounds.minY).toNat hi hj
      hbi.2.1 hbi.2.2 hbj.2.1 hbj.2.2

/-- Claim C4, witness at bounds `[0, 5)` (rows) and `W = 2`. -/
theorem C4_bands_partition_rows_witness :
    (∀ y : Int,
      Png.inAnyBand ⟨0, 0, 4, 5⟩ 2 y = true ↔ ((0 : Int) ≤ y ∧ y < 5)) ∧
    (∀ (i j : Nat) (y : Int), i < 2 → j < 2 →
      Png.inBand ⟨0, 0, 4, 5⟩ 2 i y = true →
      Png.inBand ⟨0, 0, 4, 5⟩ 2 j y = true → i = j) :=
  C4_bands_partition_rows ⟨0, 0, 4, 5⟩ 2 (by decide)
    (show (0 : Int) ≤ 5 by decide)

/-- The write condition of a band worker (row in some band, column in
x-range) coincides with the whole-image bounds test. -/
theorem band_cond_eq_inRect (b : Png.Rect) (W : Nat) (hW : 1 ≤ W)
    (hb : b.minY ≤ b.maxY) (x y : Int) :
    (Png.inAnyBand b W y && (decide (b.minX ≤ x) && decide (x < b.maxX))) =
      Png.inRect b x y := by
  have hcov := inAnyBand_iff b W hW hb y
  rw [Bool.eq_iff_iff]
  simp only [Bool.and_eq_true, decide_eq_true_eq, Png.inRect, hcov]
  tauto

/-- Claim C10: for every image of non-negative height, every convolution
kernel of the effect set and the grayscale transform, and every worker
count `W ≥ 1`, the banded BSP output buffer is pixel-for-pixel equal to
the sequential whole-image output buffer. -/
theorem C10_bsp_refines_sequential (img : Png.Image) (W : Nat) (hW : 1 ≤ W)
    (hb : img.Bounds.minY ≤ img.Bounds.maxY) :
    (∀ kernel ∈ [Png.sharpenKernel, Png.edgeKernel, Png.blurKernel],
      ∀ x y : Int,
        (Png.BSPConvolution img kernel W).Out x y =
          (Png.convolution img kernel).Out x y) ∧
    (∀ x y : Int,
      (Png.BSPGrayscale img W).Out x y = (Png.Grayscale img).Out x y) := by
  constructor
  · intro kernel _ x y
    show (if (Png.inAnyBand img.Bounds W y &&
          (decide (img.Bounds.minX ≤ x) && decide (x < img.Bounds.maxX))) = true
        then Png.convolvedPixel img.In img.Bounds kernel x y
        else img.Out x y) =
      (if Png.inRect img.Bounds x y = true
        then Png.convolvedPixel img.In img.Bounds kernel x y
        else img.Out x y)
    rw [band_cond_eq_inRect img.Bounds W hW hb x y]
  · intro x y
    show (if (Png.inAnyBand img.Bounds W y &&
          (decide (img.Bounds.minX ≤ x) && decide (x < img.Bounds.maxX))) = true
        then Png.greyPixel (img.In x y)
        else img.Out x y) =
      (if Png.inRect img.Bounds x y = true
        then Png.greyPixel (img.In x y)
        else img.Out x y)
    rw [band_cond_eq_inRect img.Bounds W hW hb x y]

/-- Claim C10, witness at a constant 1×1 image with `W = 1`. -/
theorem C10_bsp_refines_sequential_witness :
    (∀ kernel ∈ [Png.sharpenKernel, Png.edgeKernel, Png.blurKernel],
      ∀ x y : Int,
        (Png.BSPConvolution (Png.Load (fun _ _ => ⟨1, 2, 3, 4⟩) ⟨0, 0, 1, 1⟩)
            kernel 1).Out x y =
          (Png.convolution (Png.Load (fun _ _ => ⟨1, 2, 3, 4⟩) ⟨0, 0, 1, 1⟩)
            kernel).Out x y) ∧
    (∀ x y : Int,
      (Png.BSPGrayscale (Png.Load (fun _ _ => ⟨1, 2, 3, 4⟩) ⟨0, 0, 1, 1⟩)
          1).Out x y =
        (Png.Grayscale
          (Png.Load (fun _ _ => ⟨1, 2, 3, 4⟩) ⟨0, 0, 1, 1⟩)).Out x y) :=
  C10_bsp_refines_sequential (Png.Load (fun _ _ => ⟨1, 2, 3, 4⟩) ⟨0, 0, 1, 1⟩)
    1 (by decide) (show (0 : Int) ≤ 1 by decide)

/-- Claim C9: the grayscale effect is idempotent — averaging an already
grey pixel is a fixed point, and on every in-bounds pixel the pipeline
output of `["G", "G"]` (grayscale, swap buffers, grayscale again) equals
the pipeline output of `["G"]`. -/
theorem C9_grayscale_idempotent (inBuf : Png.Buf) (bounds : Png.Rect)
    (W : Nat) (hW : 1 ≤ W) (hb : bounds.minY ≤ bounds.maxY) (x y : Int)
    (hxy : Png.inRect bounds x y = true) :
    (∀ p : Png.Pixel, Png.greyPixel (Png.greyPixel p) = Png.greyPixel p) ∧
    Scheduler.savedBuf
        (Scheduler.processSaved (Png.Load inBuf bounds) ["G", "G"] W) x y =
      Scheduler.savedBuf
        (Scheduler.processSaved (Png.Load inBuf bounds) ["G"] W) x y := by
  refine ⟨greyPixel_idem, ?_⟩
  have hc : (Png.inAnyBand bounds W y &&
      (decide (bounds.minX ≤ x) && decide (x < bounds.maxX))) = true := by
    rw [band_cond_eq_inRect bounds W hW hb x y]
    exact hxy
  have h1 : Scheduler.savedBuf
      (Scheduler.processSaved (Png.Load inBuf bounds) ["G"] W) =
      (Png.BSPGrayscale ⟨inBuf, fun _ _ => Png.zeroPixel, bounds, true⟩ W).Out :=
    rfl
  have h2 : Scheduler.savedBuf
      (Scheduler.processSaved (Png.Load inBuf bounds) ["G", "G"] W) =
      (Png.BSPGrayscale (Png.SwapBuffers
        (Png.BSPGrayscale ⟨inBuf, fun _ _ => Png.zeroPixel, bounds, true⟩ W))
        W).Out := rfl
  rw [h1, h2]
  show (if (Png.inAnyBand bounds W y &&
        (decide (bounds.minX ≤ x) && decide (x < bounds.maxX))) = true
      then Png.greyPixel
        ((Png.BSPGrayscale ⟨inBuf, fun _ _ => Png.zeroPixel, bounds, true⟩
          W).Out x y)
      else inBuf x y) =
    (if (Png.inAnyBand bounds W y &&
        (decide (bounds.minX ≤ x) && decide (x < bounds.maxX))) = true
      then Png.greyPixel (inBuf x y)
      else Png.zeroPixel)
  rw [if_pos hc, if_pos hc]
  show Png.greyPixel
      (if (Png.inAnyBand bounds W y &&
        (decide (bounds.minX ≤ x) && decide (x < bounds.maxX))) = true
      then Png.greyPixel (inBuf x y)
      else Png.zeroPixel) = Png.greyPixel (inBuf x y)
  rw [if_pos hc]
  exact greyPixel_idem (inBuf x y)

/-- Claim C9, witness at a constant 1×1 image, `W = 1`, pixel `(0, 0)`. -/
theorem C9_grayscale_idempotent_witness :
    (∀ p : Png.Pixel, Png.greyPixel (Png.greyPixel p) = Png.greyPixel p) ∧
    Scheduler.savedBuf
        (Scheduler.processSaved
          (Png.Load (fun _ _ => ⟨25, 75, 250, 9⟩) ⟨0, 0, 1, 1⟩)
          ["G", "G"] 1) 0 0 =
      Scheduler.savedBuf
        (Scheduler.processSaved
          (Png.Load (fun _ _ => ⟨25, 75, 250, 9⟩) ⟨0, 0, 1, 1⟩)
          ["G"] 1) 0 0 :=
  C9_grayscale_idempotent (fun _ _ => ⟨25, 75, 250, 9⟩) ⟨0, 0, 1, 1⟩ 1
    (by decide) (show (0 : Int) ≤ 1 by decide) 0 0 (by decide)
